import Mathlib

/-
  Verification development for the hmo-buddy-chat RAG backend.

  The definitions below are a shallow embedding of the Python sources:
    - backend/document_processor.py : DocumentProcessor.chunk_text and the
      metadata-annotation step of DocumentProcessor.process_document;
    - backend/rag_service.py : RAGService.retrieve_context,
      RAGService.format_prompt_with_context, and the message construction
      of RAGService.chat.

  Conventions of the embedding:
    - Python strings are List Char (for the chunker, where indexing matters)
      or String (for prompt composition).
    - Python ints are Nat; the only subtraction that occurs in the sources
      (start = end - overlap) is compared against 0 in the source itself,
      and truncated Nat subtraction agrees with the source comparisons
      (end - overlap <= 0 in Python iff end <= overlap, which is the
      condition used here).
    - The chunking while-loop is embedded with explicit fuel: a result of
      none means the loop did not finish within the given fuel; chunk_ranges
      supplies fuel text.length + 1, which is enough for every terminating
      run whose loop makes progress of at least one character per iteration.
    - Python float distances are embedded as rationals; all comparisons in
      the claims are far from representation boundaries.
    - Python dicts are association lists in insertion order (MetaMap);
      dictSet reproduces dict assignment (replace in place or append).
    - The mutation of dicts in process_document is embedded with an explicit
      heap (a list of MetaMap cells addressed by index), so that aliasing
      between the caller-supplied dict and the per-chunk dicts is visible.
-/

/-- Python str.rfind of a single character c inside text[a:b): the auxiliary
scans candidate index n-1 downward and returns the highest position p with
a <= p < b and l[p] = c, or none. -/
def rfindCharAux (l : List Char) (c : Char) (a : Nat) : Nat → Option Nat
  | 0 => none
  | n + 1 => if a ≤ n ∧ l.get? n = some c then some n else rfindCharAux l c a n

/-- Python text.rfind(c, a, b) for a single character c, as an Option. -/
def rfindChar (l : List Char) (c : Char) (a b : Nat) : Option Nat :=
  rfindCharAux l c a b

/-- End-of-chunk computation of DocumentProcessor.chunk_text
(document_processor.py lines 88-101): propose end = start + chunk_size; if
that lies strictly inside the text, prefer the last dot in the window when
it lies strictly past start + chunk_size / 2, else the last space in the
window when it lies strictly past the midpoint, else keep the hard end. -/
def chunkEnd (cs : Nat) (l : List Char) (start : Nat) : Nat :=
  if start + cs < l.length then
    match rfindChar l '.' start (start + cs) with
    | some se =>
      if start + cs / 2 < se then se + 1
      else
        match rfindChar l ' ' start (start + cs) with
        | some sp => if start + cs / 2 < sp then sp else start + cs
        | none => start + cs
    | none =>
      match rfindChar l ' ' start (start + cs) with
      | some sp => if start + cs / 2 < sp then sp else start + cs
      | none => start + cs
  else start + cs

/-- Python slice text[s:e] (nonnegative bounds, clamped to the length). -/
def listSlice (l : List Char) (s e : Nat) : List Char :=
  (l.take e).drop s

/-- Python str.strip(): remove leading and trailing whitespace. (Python
strips a slightly larger whitespace set; the sources and claims only involve
space, tab, CR and LF, which Char.isWhitespace covers.) -/
def pyStrip (l : List Char) : List Char :=
  ((l.dropWhile Char.isWhitespace).reverse.dropWhile Char.isWhitespace).reverse

/-- The while-loop of DocumentProcessor.chunk_text (lines 87-113), recorded
as the list of (start, end) windows it processes, with explicit fuel. At
each step with start < len: compute end = chunkEnd, record the window, set
start = end - overlap, and stop when the new start would be <= 0 (here:
end <= overlap) or >= len; otherwise iterate. none means the fuel ran out
before the loop finished. -/
def chunkLoop (cs ov : Nat) (l : List Char) : Nat → Nat → Option (List (Nat × Nat))
  | 0, _ => none
  | fuel + 1, start =>
    if start < l.length then
      if chunkEnd cs l start ≤ ov ∨ l.length ≤ chunkEnd cs l start - ov then
        some [(start, chunkEnd cs l start)]
      else
        match chunkLoop cs ov l fuel (chunkEnd cs l start - ov) with
        | none => none
        | some rest => some ((start, chunkEnd cs l start) :: rest)
    else some []

/-- The windows processed by chunk_text, with fuel text.length + 1 (enough
for every run that advances at least one character per iteration). -/
def chunk_ranges (cs ov : Nat) (l : List Char) : Option (List (Nat × Nat)) :=
  chunkLoop cs ov l (l.length + 1) 0

/-- DocumentProcessor.chunk_text: each processed window [start, end) is
sliced from the text, stripped, and emitted when non-empty. -/
def chunk_text (cs ov : Nat) (l : List Char) : Option (List (List Char)) :=
  (chunk_ranges cs ov l).map fun rs =>
    (rs.map fun r => pyStrip (listSlice l r.1 r.2)).filter fun c => !c.isEmpty

/-- Index i is inside one of the recorded windows. -/
def covers (rs : List (Nat × Nat)) (i : Nat) : Prop :=
  ∃ r ∈ rs, r.1 ≤ i ∧ i < r.2

/-- Boolean coverage check: the chunking loop finished within the supplied
fuel and every character index of the text lies in some processed window. -/
def coverageB (cs ov : Nat) (l : List Char) : Bool :=
  match chunk_ranges cs ov l with
  | none => false
  | some rs =>
    (List.range l.length).all fun i => rs.any fun r => decide (r.1 ≤ i) && decide (i < r.2)

theorem rfindCharAux_some (l : List Char) (c : Char) (a : Nat) :
    ∀ b p, rfindCharAux l c a b = some p → a ≤ p ∧ p < b ∧ l.get? p = some c := by
  intro b
  induction b with
  | zero => intro p h; simp [rfindCharAux] at h
  | succ n ih =>
    intro p h
    rw [rfindCharAux] at h
    split at h
    · rename_i hcond
      cases h
      exact ⟨hcond.1, Nat.lt_succ_self n, hcond.2⟩
    · have := ih p h
      exact ⟨this.1, Nat.lt_succ_of_lt this.2.1, this.2.2⟩

theorem rfindCharAux_none (l : List Char) (c : Char) (a : Nat) :
    ∀ b, (∀ i, a ≤ i → i < b → l.get? i ≠ some c) → rfindCharAux l c a b = none := by
  intro b
  induction b with
  | zero => intro _; rfl
  | succ n ih =>
    intro h
    rw [rfindCharAux]
    split
    · rename_i hcond
      exact absurd hcond.2 (h n hcond.1 (Nat.lt_succ_self n))
    · exact ih fun i h1 h2 => h i h1 (Nat.lt_succ_of_lt h2)

theorem chunkEnd_lower (cs : Nat) (l : List Char) (start : Nat) (h : 0 < cs) :
    start + cs / 2 < chunkEnd cs l start := by
  have hd : cs / 2 < cs := Nat.div_lt_self h (by omega)
  unfold chunkEnd
  split
  · split
    · rename_i se _
      split
      · omega
      · split
        · rename_i sp _
          split
          · omega
          · omega
        · omega
    · split
      · rename_i sp _
        split
        · omega
        · omega
      · omega
  · omega

theorem chunkLoop_stuck :
    ∀ fuel, chunkLoop 10 8 ("abcdefghij klmnopqrstuv".toList) fuel 2 = none := by
  intro fuel
  induction fuel with
  | zero => rfl
  | succ n ih =>
    rw [chunkLoop,
      if_pos (by decide : (2:Nat) < ("abcdefghij klmnopqrstuv".toList).length),
      (by decide : chunkEnd 10 ("abcdefghij klmnopqrstuv".toList) 2 = 10),
      if_neg (by decide :
        ¬ ((10:Nat) ≤ 8 ∨ ("abcdefghij klmnopqrstuv".toList).length ≤ 10 - 8))]
    rw [(by decide : (10:Nat) - 8 = 2), ih]

/-- C4: the claim states that chunk_text terminates within
ceil(len / (chunkSize - overlap)) iterations for every valid configuration.
The code violates this: with chunkSize = 10, overlap = 8 (a valid
configuration) and the 23-character text "abcdefghij klmnopqrstuv" (single
space at index 10, no dot), the loop reaches start = 2, computes end = 10
(space at 10 past the midpoint 7), sets start = 10 - 8 = 2 again, and the
progress guard (which only checks start <= 0 or start >= len) never fires:
the loop runs forever. Formally, the loop embedding returns none (fuel
exhausted) for every fuel value, so no iteration bound exists. -/
theorem c4_nontermination :
    ∀ fuel, chunkLoop 10 8 ("abcdefghij klmnopqrstuv".toList) fuel 0 = none := by
  intro fuel
  cases fuel with
  | zero => rfl
  | succ n =>
    rw [chunkLoop,
      if_pos (by decide : (0:Nat) < ("abcdefghij klmnopqrstuv".toList).length),
      (by decide : chunkEnd 10 ("abcdefghij klmnopqrstuv".toList) 0 = 10),
      if_neg (by decide :
        ¬ ((10:Nat) ≤ 8 ∨ ("abcdefghij klmnopqrstuv".toList).length ≤ 10 - 8))]
    rw [(by decide : (10:Nat) - 8 = 2), chunkLoop_stuck n]

/-- C1 counterexample: with chunkSize = 10, overlap = 6 (a valid
configuration: 0 <= 6 < 10) on the 17-character text "abcdef gggggggggg",
the first window is cut at the space (index 6 > midpoint 5), end = 6, and
the new start 6 - 6 = 0 triggers the start <= 0 exit: the loop stops after
one window [0, 6) and characters 6..16 are skipped entirely, refuting the
coverage claim for valid configurations in general. -/
theorem c1_coverage_counterexample :
    (0 < 10 ∧ 0 ≤ 6 ∧ 6 < 10) ∧
    chunk_ranges 10 6 ("abcdef gggggggggg".toList) = some [(0, 6)] ∧
    ("abcdef gggggggggg".toList).length = 17 ∧
    ¬ covers [(0, 6)] 7 ∧
    coverageB 10 6 ("abcdef gggggggggg".toList) = false := by
  refine ⟨by decide, by decide, by decide, ?_, by decide⟩
  rintro ⟨r, hr, h1, h2⟩
  simp only [List.mem_singleton] at hr
  subst hr
  omega

theorem chunkLoop_total_covers (cs ov : Nat) (l : List Char)
    (hcs : 0 < cs) (hov : 2 * ov ≤ cs) :
    ∀ fuel start, start ≤ l.length → l.length < start + fuel →
      ∃ rs, chunkLoop cs ov l fuel start = some rs ∧
        ∀ i, start ≤ i → i < l.length → covers rs i := by
  intro fuel
  induction fuel with
  | zero => intro start h1 h2; omega
  | succ n ih =>
    intro start h1 h2
    by_cases hs : start < l.length
    · have hov2 : ov ≤ cs / 2 := by omega
      have hlow : start + cs / 2 < chunkEnd cs l start := chunkEnd_lower cs l start hcs
      have heov : ¬ (chunkEnd cs l start ≤ ov) := by omega
      by_cases hbreak : l.length ≤ chunkEnd cs l start - ov
      · refine ⟨[(start, chunkEnd cs l start)], ?_, ?_⟩
        · rw [chunkLoop, if_pos hs, if_pos (Or.inr hbreak)]
        · intro i hi1 hi2
          exact ⟨(start, chunkEnd cs l start), List.mem_singleton_self _, hi1, by omega⟩
      · obtain ⟨rs, hrs, hcov⟩ := ih (chunkEnd cs l start - ov) (by omega) (by omega)
        refine ⟨(start, chunkEnd cs l start) :: rs, ?_, ?_⟩
        · rw [chunkLoop, if_pos hs, if_neg (by tauto), hrs]
        · intro i hi1 hi2
          by_cases hie : i < chunkEnd cs l start
          · exact ⟨(start, chunkEnd cs l start), List.mem_cons_self _ _, hi1, hie⟩
          · obtain ⟨r, hr, hr2⟩ := hcov i (by omega) hi2
            exact ⟨r, List.mem_cons_of_mem _ hr, hr2⟩
    · refine ⟨[], ?_, ?_⟩
      · rw [chunkLoop, if_neg hs]
      · intro i hi1 hi2; omega

/-- C1 amended: the coverage claim fails for valid configurations in general
(see the counterexample), but holds whenever 2 * overlap <= chunkSize: the
chunking loop then finishes and every character index of the text lies in
one of the processed windows, so no character is skipped. -/
theorem c1_coverage_amended (cs ov : Nat) (l : List Char)
    (hcs : 0 < cs) (hov : 2 * ov ≤ cs) :
    coverageB cs ov l = true := by
  obtain ⟨rs, hrs, hcov⟩ :=
    chunkLoop_total_covers cs ov l hcs hov (l.length + 1) 0 (Nat.zero_le _) (by omega)
  have hr : chunk_ranges cs ov l = some rs := hrs
  unfold coverageB
  rw [hr]
  rw [List.all_eq_true]
  intro i hi
  rw [List.mem_range] at hi
  obtain ⟨r, hmem, ha, hb⟩ := hcov i (Nat.zero_le i) hi
  rw [List.any_eq_true]
  exact ⟨r, hmem, by simp [ha, hb]⟩

/-- Witness for c1_coverage_amended at chunkSize = 10, overlap = 5 on a
concrete 12-character text. -/
theorem c1_coverage_witness :
    coverageB 10 5 ("abc def. ghi".toList) = true :=
  c1_coverage_amended 10 5 ("abc def. ghi".toList) (by decide) (by decide)

/-- C5 counterexample: "hello" has length 5 < chunkSize 10 and overlap 8 is
valid (0 <= 8 < 10), yet chunk_text emits three chunks, not one: end = 10
exceeds the text, so the slice is the whole text, but the new start
10 - 8 = 2 is strictly between 0 and 5, so the loop continues and re-emits
suffixes of the text ("llo", then "o"). -/
theorem c5_single_chunk_counterexample :
    chunk_text 10 8 ("hello".toList) =
      some ["hello".toList, "llo".toList, "o".toList] ∧
    chunk_text 10 8 ("hello".toList) ≠ some [pyStrip ("hello".toList)] := by
  constructor
  · decide
  · decide

/-- C5 amended: a text whose length is at most chunkSize - overlap (rather
than merely less than chunkSize) and whose trimmed form is non-empty yields
exactly one chunk, the whole text trimmed: the single window is [0, cs) and
the loop exits because the next start reaches the text length. -/
theorem c5_single_chunk_amended (cs ov : Nat) (l : List Char)
    (h1 : 0 < l.length) (h2 : l.length ≤ cs - ov) (h3 : pyStrip l ≠ []) :
    chunk_text cs ov l = some [pyStrip l] := by
  have hcs : l.length ≤ cs := by omega
  have hend : chunkEnd cs l 0 = cs := by
    unfold chunkEnd
    rw [if_neg (by omega)]
    omega
  have hloop : chunk_ranges cs ov l = some [(0, cs)] := by
    unfold chunk_ranges
    rw [chunkLoop, if_pos h1, hend, if_pos (Or.inr (by omega))]
  unfold chunk_text
  rw [hloop]
  have hslice : listSlice l 0 cs = l := by
    unfold listSlice
    rw [List.drop_zero, List.take_of_length_le hcs]
  simp only [Option.map_some', List.map_cons, List.map_nil, hslice, List.filter]
  rw [show (!(pyStrip l).isEmpty) = true by
    cases hp : pyStrip l with
    | nil => exact absurd hp h3
    | cons a t => rfl]

/-- Witness for c5_single_chunk_amended: chunkSize 10, overlap 2, text
"hello" (length 5 <= 10 - 2, trimmed form non-empty). -/
theorem c5_single_chunk_witness :
    chunk_text 10 2 ("hello".toList) = some [pyStrip ("hello".toList)] :=
  c5_single_chunk_amended 10 2 ("hello".toList) (by decide) (by decide) (by decide)

/-- C6 counterexample: the text "abcdefg\n\nhijklmnopqrs" with chunkSize 10
has a paragraph break at indices 7 and 8, strictly past the midpoint
0 + 10 / 2 = 5 and strictly before the hard limit 10, and the hard limit is
strictly inside the text; yet the chunker cuts at the hard limit 10, not at
the break: the code only ever searches for a dot or a space, never for a
paragraph break. -/
theorem c6_paragraph_counterexample :
    ("abcdefg\n\nhijklmnopqrs".toList).get? 7 = some '\n' ∧
    ("abcdefg\n\nhijklmnopqrs".toList).get? 8 = some '\n' ∧
    0 + 10 / 2 < 7 ∧ 7 < 0 + 10 ∧
    0 + 10 < ("abcdefg\n\nhijklmnopqrs".toList).length ∧
    chunkEnd 10 ("abcdefg\n\nhijklmnopqrs".toList) 0 = 0 + 10 := by
  decide

/-- C6 amended: the cut-point search of chunk_text considers only a dot and
a space, in that priority, each accepted only strictly past the midpoint;
paragraph breaks are not cut-point candidates. Consequently, for any window
lying strictly inside the text that contains no dot and no space strictly
past the midpoint, the chunk is cut at the hard limit start + chunkSize,
regardless of any paragraph breaks in the window. -/
theorem c6_cut_priority_amended (cs : Nat) (l : List Char) (start : Nat)
    (hlen : start + cs < l.length)
    (hdot : ∀ i < start + cs, start ≤ i → l.get? i ≠ some '.')
    (hspace : ∀ i < start + cs, start ≤ i → l.get? i = some ' ' → i ≤ start + cs / 2) :
    chunkEnd cs l start = start + cs := by
  have hd : rfindChar l '.' start (start + cs) = none :=
    rfindCharAux_none l '.' start (start + cs) fun i hi1 hi2 => hdot i hi2 hi1
  cases hsp : rfindChar l ' ' start (start + cs) with
  | none =>
    unfold chunkEnd
    rw [if_pos hlen, hd, hsp]
  | some sp =>
    have hb := rfindCharAux_some l ' ' start (start + cs) sp hsp
    have hle : sp ≤ start + cs / 2 := hspace sp hb.2.1 hb.1 hb.2.2
    unfold chunkEnd
    rw [if_pos hlen, hd, hsp]
    dsimp only
    rw [if_neg (by omega)]

/-- Witness for c6_cut_priority_amended on the paragraph-break text: the
window [0, 10) contains the break at 7-8 but no dot and no qualifying
space, and the cut lands at the hard limit 10. -/
theorem c6_cut_priority_witness :
    chunkEnd 10 ("abcdefg\n\nhijklmnopqrs".toList) 0 = 0 + 10 :=
  c6_cut_priority_amended 10 ("abcdefg\n\nhijklmnopqrs".toList) 0
    (by decide) (by decide) (by decide)

/-- C8 counterexample: chunkSize = 0 with overlap = 0 is an invalid
configuration (non-positive chunk size), yet chunk_text completes normally
and returns an empty chunk list: neither the constructor nor chunk_text
performs any validation, so no ChunkingInputError (or any error) exists in
the code. -/
theorem c8_validation_counterexample :
    chunk_text 0 0 ("abc".toList) = some [] := by
  decide

/-- C8 amended: the code never validates its chunking configuration: the
constructor stores chunk_size and chunk_overlap unchecked and chunk_text
proceeds with any values. With a non-positive chunk size it silently
returns an empty list for every text (the first window is empty and the
loop exits at start <= 0), rather than failing. -/
theorem c8_validation_amended (ov : Nat) (l : List Char) :
    chunk_text 0 ov l = some [] := by
  cases l with
  | nil => rfl
  | cons a t =>
    have hend : chunkEnd 0 (a :: t) 0 = 0 := by
      unfold chunkEnd
      rw [if_pos (by simp)]
      rfl
    have hloop : chunk_ranges 0 ov (a :: t) = some [(0, 0)] := by
      unfold chunk_ranges
      rw [chunkLoop, if_pos (by simp), hend, if_pos (Or.inl (Nat.zero_le ov))]
    unfold chunk_text
    rw [hloop]
    rfl

/-- Metadata values occurring in the sources: strings (source, file_path)
and numbers (chunk_index, total_chunks). -/
inductive Val where
  | str : String → Val
  | nat : Nat → Val
deriving DecidableEq

/-- A Python dict in insertion order, as an association list. -/
abbrev MetaMap := List (String × Val)

/-- Python dict lookup d.get(k): first (and only) binding of the key. -/
def dictGet : MetaMap → String → Option Val
  | [], _ => none
  | (k1, v1) :: rest, k => if k1 = k then some v1 else dictGet rest k

/-- Python dict assignment d[k] = v: replace the value in place when the key
exists, else append the new binding. -/
def dictSet : MetaMap → String → Val → MetaMap
  | [], k, v => [(k, v)]
  | (k1, v1) :: rest, k, v =>
    if k1 = k then (k, v) :: rest else (k1, v1) :: dictSet rest k v

/-- A retrieved context record (rag_service.py lines 63-67): text, metadata
and the similarity computed from the reported distance. -/
structure Ctx where
  text : String
  metadata : MetaMap
  similarity : Rat
deriving DecidableEq

/-- The search result consumed by retrieve_context. documents embeds
results/documents/0 (the empty list covers the falsy cases of the check at
line 56), metadatas embeds results/metadatas/0 (none when the check at
line 65 is falsy), distances is some iff the distances key is present in
the result mapping (line 59). -/
structure SearchRes where
  documents : List String
  metadatas : Option (List MetaMap)
  distances : Option (List Rat)

/-- Line 59: results.distances[0][i] if the distances key is present, else
the literal 0. Indexing is embedded as getD (the index is in range for
well-formed results, which is what the index returns). -/
def distAt (dists : Option (List Rat)) (i : Nat) : Rat :=
  match dists with
  | some dl => dl.getD i 0
  | none => 0

/-- Line 65: results.metadatas[0][i] if metadatas is truthy, else the empty
dict. -/
def metaAt (metas : Option (List MetaMap)) (i : Nat) : MetaMap :=
  match metas with
  | some ml => ml.getD i []
  | none => []

/-- The enumeration loop of retrieve_context (lines 57-67): for each
document at position i, similarity = 1 - distance, and the record is kept
iff similarity >= min_similarity, in index order. -/
def retrieveLoop (metas : Option (List MetaMap)) (dists : Option (List Rat))
    (minSim : Rat) : Nat → List String → List Ctx
  | _, [] => []
  | i, doc :: rest =>
    (if minSim ≤ 1 - distAt dists i then
      [⟨doc, metaAt metas i, 1 - distAt dists i⟩]
    else []) ++ retrieveLoop metas dists minSim (i + 1) rest

/-- The result-processing part of RAGService.retrieve_context (lines
55-70). -/
def contextOf (res : SearchRes) (minSim : Rat) : List Ctx :=
  retrieveLoop res.metadatas res.distances minSim 0 res.documents

/-- RAGService.retrieve_context (lines 51-74): the whole body runs inside a
try/except that logs any exception and returns the empty list, so a failed
search (including an embedding failure raised inside
vector_store.search) produces Except.ok [] rather than an error. -/
def retrieve_context (outcome : Except String SearchRes) (minSim : Rat) :
    Except String (List Ctx) :=
  match outcome with
  | Except.error _ => Except.ok []
  | Except.ok res => Except.ok (contextOf res minSim)

theorem retrieveLoop_some_dists (metas : Option (List MetaMap)) (minSim : Rat) :
    ∀ (docs : List String) (dl : List Rat) (i : Nat), i + docs.length ≤ dl.length →
      (retrieveLoop metas (some dl) minSim i docs).map (fun c => (c.text, c.similarity)) =
        ((docs.zip (dl.drop i)).filter fun p => minSim ≤ 1 - p.2).map fun p => (p.1, 1 - p.2) := by
  intro docs
  induction docs with
  | nil => intro dl i h; simp [retrieveLoop]
  | cons d rest ih =>
    intro dl i h
    have hi : i < dl.length := by simp only [List.length_cons] at h; omega
    have hdrop : dl.drop i = dl[i] :: dl.drop (i + 1) := List.drop_eq_getElem_cons hi
    have hgetD : distAt (some dl) i = dl[i] := by
      simp [distAt, List.getD_eq_getElem?_getD, List.getElem?_eq_getElem hi]
    have hrest := ih dl (i + 1) (by simp only [List.length_cons] at h; omega)
    rw [retrieveLoop, hgetD, hdrop, List.zip_cons_cons, List.filter_cons]
    by_cases hc : minSim ≤ 1 - dl[i]
    · rw [if_pos hc, if_pos (by simpa using hc)]
      simp only [List.singleton_append, List.map_cons]
      rw [hrest]
    · rw [if_neg hc, if_neg (by simpa using hc)]
      simp only [List.nil_append]
      rw [hrest]

/-- C7: retrieve_context computes similarity = 1 - distance for each
returned document and keeps a record iff similarity >= min_similarity, in
index order (first conjunct, for any well-formed result where each document
has a distance); concretely, distances 0.1, 0.6, 1.3 yield similarities
0.9, 0.4, -0.3 and with min_similarity = 0.5 only the first record
survives (second conjunct). -/
theorem c7_similarity_filter :
    (∀ (docs : List String) (metas : Option (List MetaMap)) (dl : List Rat) (minSim : Rat),
        docs.length ≤ dl.length →
        (contextOf ⟨docs, metas, some dl⟩ minSim).map (fun c => (c.text, c.similarity)) =
          ((docs.zip dl).filter fun p => minSim ≤ 1 - p.2).map fun p => (p.1, 1 - p.2)) ∧
    contextOf ⟨["doc1", "doc2", "doc3"], none, some [1/10, 3/5, 13/10]⟩ (1/2) =
      [⟨"doc1", [], 9/10⟩] := by
  constructor
  · intro docs metas dl minSim h
    have := retrieveLoop_some_dists metas minSim docs dl 0 (by omega)
    simpa [contextOf] using this
  · norm_num [contextOf, retrieveLoop, distAt, metaAt, Ctx.mk.injEq]

/-- Witness for the first conjunct of c7_similarity_filter at a concrete
aligned result. -/
theorem c7_similarity_filter_witness :
    (contextOf ⟨["a", "b"], none, some [0, 1]⟩ 0).map (fun c => (c.text, c.similarity)) =
      ((["a", "b"].zip [(0 : Rat), 1]).filter fun p => (0 : Rat) ≤ 1 - p.2).map
        fun p => (p.1, 1 - p.2) :=
  c7_similarity_filter.1 ["a", "b"] none [0, 1] 0 (by decide)

theorem retrieveLoop_no_dists (metas : Option (List MetaMap)) (minSim : Rat)
    (h : minSim ≤ 1) :
    ∀ (docs : List String) (i : Nat),
      (retrieveLoop metas none minSim i docs).map (fun c => (c.text, c.similarity)) =
        docs.map fun d => (d, 1) := by
  intro docs
  induction docs with
  | nil => intro i; rfl
  | cons d rest ih =>
    intro i
    rw [retrieveLoop]
    simp [distAt, h, ih (i + 1)]

/-- C10: when the search result mapping has documents but no distances key,
every document is assigned the default distance 0, hence similarity exactly
1, so it passes any min_similarity threshold up to 1 and is surfaced as a
context record, in order. -/
theorem c10_default_distance (docs : List String) (metas : Option (List MetaMap))
    (minSim : Rat) (h : minSim ≤ 1) :
    (contextOf ⟨docs, metas, none⟩ minSim).map (fun c => (c.text, c.similarity)) =
      docs.map fun d => (d, 1) :=
  retrieveLoop_no_dists metas minSim h docs 0

/-- Witness for c10_default_distance at min_similarity = 1/2 over two
documents. -/
theorem c10_default_distance_witness :
    (contextOf ⟨["x", "y"], none, none⟩ (1/2)).map (fun c => (c.text, c.similarity)) =
      [("x", (1 : Rat)), ("y", 1)] := by
  exact c10_default_distance ["x", "y"] none (1/2) (by norm_num)

/-- C3 counterexample: a failing embedding gateway (the search step raises)
does not propagate out of retrieve_context: the blanket except converts it
into the normal result Except.ok [], refuting the propagation claim. -/
theorem c3_propagation_counterexample :
    retrieve_context (Except.error "embedding service unreachable") 0 = Except.ok [] := rfl

/-- C3 amended: retrieve_context catches every failure of its embedding and
search step and returns the empty context list; no error ever escapes it
(the error is also not retried: the single call is simply absorbed). -/
theorem c3_no_propagation_amended :
    (∀ (e : String) (minSim : Rat),
        retrieve_context (Except.error e) minSim = Except.ok []) ∧
    (∀ (o : Except String SearchRes) (minSim : Rat),
        ∃ ctxs, retrieve_context o minSim = Except.ok ctxs) := by
  refine ⟨fun e minSim => rfl, fun o minSim => ?_⟩
  cases o with
  | error e => exact ⟨[], rfl⟩
  | ok res => exact ⟨contextOf res minSim, rfl⟩

/-- Renders a metadata value into an f-string position. -/
def valStr : Val → String
  | Val.str s => s
  | Val.nat n => toString n

/-- ctx.metadata.get of the source key with default Unknown (rag_service.py
line 98 and line 216). -/
def sourceLabel (m : MetaMap) : String :=
  match dictGet m "source" with
  | some v => valStr v
  | none => "Unknown"

/-- The context section built at rag_service.py lines 97-100 and 215-218:
source-labelled records joined by a blank line. -/
def contextText (contexts : List Ctx) : String :=
  String.intercalate "\n\n"
    (contexts.map fun ctx => "[Source: " ++ sourceLabel ctx.metadata ++ "]\n" ++ ctx.text)

/-- The default system prompt of format_prompt_with_context (lines
103-111). -/
def defaultSystemPrompt : String :=
  "You are HMO Buddy, a helpful assistant for Health Maintenance Organization (HMO) queries.\n\nINSTRUCTIONS:\n1. Use the CONTEXT below to answer the user\x27s question\n2. If the context contains the answer, provide a clear and specific response based on it\n3. If the context doesn\x27t contain relevant information, say so clearly and then provide general guidance if appropriate\n4. Always be helpful, clear, and professional"

/-- RAGService.format_prompt_with_context (lines 76-124): the empty-context
branch returns the query unchanged; otherwise the system prompt (default
when none is supplied), the context section, the user question and the
answer cue are concatenated. -/
def format_prompt_with_context (query : String) (contexts : List Ctx)
    (systemPrompt : Option String) : String :=
  if contexts.isEmpty then query
  else
    (match systemPrompt with
      | some s => s
      | none => defaultSystemPrompt) ++
      "\n\nCONTEXT:\n" ++ contextText contexts ++
      "\n\nUSER QUESTION:\n" ++ query ++ "\n\nANSWER:"

/-- A role-tagged chat message. -/
structure Msg where
  role : String
  content : String
deriving DecidableEq

/-- The system message of RAGService.chat when contexts are present (lines
220-229). -/
def contextSystemMessage (contexts : List Ctx) : String :=
  "You are HMO Buddy, a helpful assistant for Health Maintenance Organization (HMO) queries.\n\nIMPORTANT INSTRUCTIONS:\n- Answer questions using the CONTEXT provided below\n- If the context contains relevant information, base your answer on it\n- Be specific and cite information from the context when applicable\n- If the context doesn\x27t contain the answer, clearly state that and provide general guidance if appropriate\n- Always be helpful, professional, and accurate\n\nCONTEXT:\n"
    ++ contextText contexts ++ "\n"

/-- The system message of RAGService.chat when no context is available
(lines 232-237). -/
def noContextSystemMessage : String :=
  "You are HMO Buddy, a helpful assistant for Health Maintenance Organization (HMO) queries. Provide accurate and helpful information based on your knowledge."

/-- Python conversation_history[-10:] (line 241). -/
def lastTen (hist : List Msg) : List Msg :=
  hist.drop (hist.length - 10)

/-- The message-list construction of RAGService.chat (lines 210-244): a
system message is appended in both branches (with or without a context
section), then the last ten history messages when a history is supplied,
then the user message with the query. -/
def chatMessages (query : String) (history : Option (List Msg))
    (contexts : List Ctx) : List Msg :=
  (if contexts.isEmpty then [Msg.mk "system" noContextSystemMessage]
    else [Msg.mk "system" (contextSystemMessage contexts)]) ++
  (match history with
    | some hist => if hist.isEmpty then [] else lastTen hist
    | none => []) ++
  [Msg.mk "user" query]

/-- C2 counterexample: with an empty context list, RAGService.chat does not
send a single user-role message: it prepends a generic system message, so
the message list has length two and starts with role system, refuting the
chat-style half of the claim. -/
theorem c2_chat_counterexample :
    chatMessages "q" none [] ≠ [Msg.mk "user" "q"] ∧
    (chatMessages "q" none []).length = 2 ∧
    (chatMessages "q" none []).head? = some (Msg.mk "system" noContextSystemMessage) := by
  refine ⟨?_, rfl, rfl⟩
  decide

/-- C2 amended: with an empty context list, format_prompt_with_context
returns the query unchanged (the string-form half of the claim is correct),
while chat-style composition emits a generic no-context system message
followed by the capped history and the user message: the first message has
role system and the last is the user query; no context section appears but
the message list is never a lone user message. -/
theorem c2_empty_context_amended (query : String) (systemPrompt : Option String)
    (history : Option (List Msg)) :
    format_prompt_with_context query [] systemPrompt = query ∧
    (chatMessages query history []).head? = some (Msg.mk "system" noContextSystemMessage) ∧
    (chatMessages query history []).getLast? = some (Msg.mk "user" query) := by
  refine ⟨rfl, rfl, ?_⟩
  unfold chatMessages
  exact List.getLast?_concat _

/-- A heap of Python dict objects: cell index = object identity. -/
abbrev Heap := List MetaMap

/-- The per-chunk loop of DocumentProcessor.process_document (lines
148-157): for each (i, chunk), allocate chunk_metadata as a copy of the
base dict (whose cell is never written inside the loop, so its value is
passed in), set chunk_index and total_chunks on the fresh copy, and record
the chunk text together with the address of its metadata object. -/
def annotateLoop (base : MetaMap) (n : Nat) :
    List (Nat × String) → Heap → Heap × List (String × Nat)
  | [], h => (h, [])
  | (i, c) :: rest, h =>
    let m := dictSet (dictSet base "chunk_index" (Val.nat i)) "total_chunks" (Val.nat n)
    let res := annotateLoop base n rest (h ++ [m])
    (res.1, (c, h.length) :: res.2)

/-- The metadata-construction step of DocumentProcessor.process_document
(lines 140-157). base_metadata = metadata or a fresh empty dict: when the
caller passes a truthy (non-empty) dict, base_metadata is that same object;
base_metadata.update adds the source and file_path keys in place; then each
chunk receives a fresh copy extended with chunk_index and total_chunks.
Returns the final heap and the (text, metadata address) records. -/
def annotate (h : Heap) (callerRef : Option Nat) (source filePath : String)
    (chunks : List String) : Heap × List (String × Nat) :=
  let pr : Heap × Nat :=
    match callerRef with
    | some r => if h.getD r [] = [] then (h ++ [[]], h.length) else (h, r)
    | none => (h ++ [[]], h.length)
  let base := dictSet (dictSet (pr.1.getD pr.2 []) "source" (Val.str source))
    "file_path" (Val.str filePath)
  annotateLoop base chunks.length chunks.enum (pr.1.set pr.2 base)

theorem annotateLoop_preserves (base : MetaMap) (n : Nat) :
    ∀ (ps : List (Nat × String)) (h : Heap) (j : Nat), j < h.length →
      (annotateLoop base n ps h).1.getD j [] = h.getD j [] := by
  intro ps
  induction ps with
  | nil => intro h j hj; rfl
  | cons p rest ih =>
    intro h j hj
    obtain ⟨i, c⟩ := p
    rw [annotateLoop]
    have := ih (h ++ [dictSet (dictSet base "chunk_index" (Val.nat i))
      "total_chunks" (Val.nat n)]) j (by simp; omega)
    rw [this]
    simp only [List.getD_eq_getElem?_getD, List.getElem?_append, if_pos hj]

theorem annotateLoop_refs (base : MetaMap) (n : Nat) :
    ∀ (ps : List (Nat × String)) (h : Heap),
      (annotateLoop base n ps h).2.map Prod.snd = List.range' h.length ps.length := by
  intro ps
  induction ps with
  | nil => intro h; rfl
  | cons p rest ih =>
    intro h
    obtain ⟨i, c⟩ := p
    rw [annotateLoop]
    simp only [List.map_cons, List.length_cons, List.range'_succ]
    rw [ih]
    simp

theorem annotate_refs (h : Heap) (ref : Option Nat) (s fp : String)
    (chunks : List String) :
    ∃ start, h.length ≤ start ∧
      (annotate h ref s fp chunks).2.map Prod.snd = List.range' start chunks.length := by
  rcases ref with _ | r
  · refine ⟨h.length + 1, by omega, ?_⟩
    simp only [annotate]
    rw [annotateLoop_refs, List.length_set, List.enum_length]
    simp
  · by_cases hc : h.getD r [] = []
    · refine ⟨h.length + 1, by omega, ?_⟩
      simp only [annotate]
      rw [if_pos hc]
      rw [annotateLoop_refs, List.length_set, List.enum_length]
      simp
    · refine ⟨h.length, le_refl _, ?_⟩
      simp only [annotate]
      rw [if_neg hc]
      rw [annotateLoop_refs, List.length_set, List.enum_length]

/-- C9 counterexample: the caller passes the non-empty metadata dict (cell
0 of the heap) and after the call that same dict has been changed in place:
base_metadata is the very caller object when it is truthy, and
base_metadata.update adds the source and file_path keys to it. This refutes
the claim that the caller-supplied metadata mapping is left unchanged. -/
theorem c9_caller_mutation_counterexample :
    (annotate [[("a", Val.str "x")]] (some 0) "f.txt" "docs/f.txt" ["c1"]).1.getD 0 [] ≠
      [("a", Val.str "x")] := by
  decide

/-- C9 amended: the annotation step mutates a caller-supplied non-empty
metadata dict in place, extending it with exactly the source and file_path
keys (first conjunct); the per-chunk metadata objects are freshly allocated
cells, pairwise distinct and all outside the original heap, so mutating one
chunk metadata can affect neither another chunk nor any pre-existing object
(second conjunct); and when no metadata dict is supplied, no pre-existing
heap cell changes (third conjunct). -/
theorem c9_metadata_amended :
    (∀ (h : Heap) (r : Nat) (s fp : String) (chunks : List String),
        r < h.length → h.getD r [] ≠ [] →
        (annotate h (some r) s fp chunks).1.getD r [] =
          dictSet (dictSet (h.getD r []) "source" (Val.str s))
            "file_path" (Val.str fp)) ∧
    (∀ (h : Heap) (ref : Option Nat) (s fp : String) (chunks : List String),
        ((annotate h ref s fp chunks).2.map Prod.snd).Nodup ∧
        ∀ p ∈ (annotate h ref s fp chunks).2, h.length ≤ p.2) ∧
    (∀ (h : Heap) (s fp : String) (chunks : List String) (j : Nat), j < h.length →
        (annotate h none s fp chunks).1.getD j [] = h.getD j []) := by
  refine ⟨?_, ?_, ?_⟩
  · intro h r s fp chunks hr hne
    simp only [annotate]
    rw [if_neg hne]
    rw [annotateLoop_preserves _ _ _ _ r (by rw [List.length_set]; exact hr)]
    rw [List.getD_eq_getElem?_getD, List.getElem?_set_self hr]
    rfl
  · intro h ref s fp chunks
    obtain ⟨start, hstart, hmap⟩ := annotate_refs h ref s fp chunks
    constructor
    · rw [hmap]
      exact List.nodup_range' _ _
    · intro p hp
      have hmem : p.2 ∈ (annotate h ref s fp chunks).2.map Prod.snd :=
        List.mem_map_of_mem Prod.snd hp
      rw [hmap, List.mem_range'_1] at hmem
      omega
  · intro h s fp chunks j hj
    simp only [annotate]
    rw [annotateLoop_preserves _ _ _ _ j (by rw [List.length_set]; simp; omega)]
    rw [List.getD_eq_getElem?_getD, List.getElem?_set_ne (by omega : h.length ≠ j)]
    rw [List.getElem?_append, if_pos hj]
    rw [List.getD_eq_getElem?_getD]

/-- Witness for the first conjunct of c9_metadata_amended at the concrete
heap holding the caller dict of the counterexample. -/
theorem c9_metadata_witness :
    (annotate [[("a", Val.str "x")]] (some 0) "f.txt" "docs/f.txt" ["c1"]).1.getD 0 [] =
      dictSet (dictSet [("a", Val.str "x")] "source" (Val.str "f.txt"))
        "file_path" (Val.str "docs/f.txt") :=
  c9_metadata_amended.1 [[("a", Val.str "x")]] 0 "f.txt" "docs/f.txt" ["c1"]
    (by decide) (by decide)
